import Mathlib

/-!
Verification of the particle simulation engine and demo glue code of the
`basic-graphics-samples` repository.

The demos (`14-particles.cpp`, `15-particles.cpp`, `07-texture-array.cpp`)
are embedded directly from their sources.  The particle engine itself
(`particlesystem.h` / `particlesystem.cpp`) is not among the given source
files — only its configuration calls and per-frame callers are — so the
engine is modelled from the specification's component design (§3, §4 of the
design document), faithfully following its procedural description of
`initialize`, `update(dt)` (emission, integration, collision, retirement,
color derivation, snapshot), `reset` and the snapshot layout.

Real-valued quantities (C++ `float`) are embedded as exact rationals `ℚ`;
all definitions are executable so that concrete runs of the engine can be
evaluated inside proofs.
-/

namespace ParticleSystem

/-- A 3-component real vector (`rapid::float3`). -/
structure Vec3 where
  x : ℚ
  y : ℚ
  z : ℚ
deriving DecidableEq

def Vec3.zero : Vec3 := ⟨0, 0, 0⟩

def Vec3.add (a b : Vec3) : Vec3 := ⟨a.x + b.x, a.y + b.y, a.z + b.z⟩

def Vec3.sub (a b : Vec3) : Vec3 := ⟨a.x - b.x, a.y - b.y, a.z - b.z⟩

/-- Scalar multiple `s • v`. -/
def Vec3.smul (s : ℚ) (v : Vec3) : Vec3 := ⟨s * v.x, s * v.y, s * v.z⟩

def Vec3.dot (a b : Vec3) : ℚ := a.x * b.x + a.y * b.y + a.z * b.z

/-- An RGBA color value. -/
structure Color where
  r : ℚ
  g : ℚ
  b : ℚ
  a : ℚ
deriving DecidableEq

/-- Modelled from the spec (§3, Particle): one simulated point with world
position, velocity, age in seconds since activation, active flag and a
derived RGBA color.  Inactive particles are free pool slots. -/
structure Particle where
  position : Vec3
  velocity : Vec3
  age : ℚ
  active : Bool
  color : Color
deriving DecidableEq

/-- Modelled from the spec (§3, §4.1): the engine's configuration surface —
pool capacity, emission policy, forces, spawn state, collision plane, and
the fixed restitution coefficient of the damped bounce (the spec leaves the
exact value open but requires a constant `< 1`; we fix `1/2`). -/
structure Config where
  maxParticles : ℕ
  numToRelease : ℕ
  releaseInterval : ℚ
  lifeCycle : ℚ
  originPosition : Vec3
  originVelocity : Vec3
  gravity : Vec3
  wind : Vec3
  velocityScale : ℚ
  planeNormal : Vec3
  planePoint : Vec3
  restitution : ℚ
deriving DecidableEq

/-- Modelled from the spec (§4.1): a fresh configuration before any setter
ran.  Numeric values zero, vectors zero, restitution the fixed default. -/
def Config.initial : Config :=
  { maxParticles := 0
    numToRelease := 0
    releaseInterval := 0
    lifeCycle := 0
    originPosition := Vec3.zero
    originVelocity := Vec3.zero
    gravity := Vec3.zero
    wind := Vec3.zero
    velocityScale := 0
    planeNormal := Vec3.zero
    planePoint := Vec3.zero
    restitution := 1/2 }

def setMaxParticles (c : Config) (n : ℕ) : Config := { c with maxParticles := n }

def setNumToRelease (c : Config) (n : ℕ) : Config := { c with numToRelease := n }

def setReleaseInterval (c : Config) (s : ℚ) : Config := { c with releaseInterval := s }

def setLifeCycle (c : Config) (s : ℚ) : Config := { c with lifeCycle := s }

def setPosition (c : Config) (v : Vec3) : Config := { c with originPosition := v }

def setVelocity (c : Config) (v : Vec3) : Config := { c with originVelocity := v }

def setGravity (c : Config) (v : Vec3) : Config := { c with gravity := v }

def setWind (c : Config) (v : Vec3) : Config := { c with wind := v }

def setVelocityScale (c : Config) (s : ℚ) : Config := { c with velocityScale := s }

def setCollisionPlane (c : Config) (n pt : Vec3) : Config :=
  { c with planeNormal := n, planePoint := pt }

/-- The configuration installed by `ParticlesApp::initParticleSystem` in both
`14-particles.cpp` (lines 66–80) and `15-particles.cpp` (lines 59–73). -/
def demoConfig : Config :=
  setCollisionPlane
    (setVelocityScale
      (setWind
        (setGravity
          (setVelocity
            (setPosition
              (setLifeCycle
                (setReleaseInterval
                  (setNumToRelease
                    (setMaxParticles Config.initial 200)
                    10)
                  (1/20))
                5)
              Vec3.zero)
            Vec3.zero)
          ⟨0, -49/5, 0⟩)
        Vec3.zero)
      20)
    ⟨0, 1, 0⟩ Vec3.zero

/-- Modelled from the spec (§3 Simulation Engine / Pool): engine state after
`initialize` — the fixed configuration, the `capacity`-sized particle array
and the Emitter's accumulated timer. -/
structure Engine where
  cfg : Config
  particles : List Particle
  accumulatedTime : ℚ

/-- An inactive pool slot as created by `initialize`. -/
def inactiveParticle : Particle :=
  { position := Vec3.zero
    velocity := Vec3.zero
    age := 0
    active := false
    color := ⟨0, 0, 0, 0⟩ }

/-- Modelled from the spec (§4.2): the engine's initialisation allocates the
fixed-capacity particle array with every slot inactive and resets the
Emitter timer to zero. -/
def initEngine (cfg : Config) : Engine :=
  { cfg := cfg
    particles := List.replicate cfg.maxParticles inactiveParticle
    accumulatedTime := 0 }

/-- Modelled from the spec (§3 color policy): the default linear fade of
alpha from 1 to 0 as `age / lifeCycle` goes from 0 to 1; the base RGB the
spec leaves open, fixed here as white. -/
def fadeColor (s : ℚ) : Color := ⟨1, 1, 1, 1 - s⟩

/-- Modelled from the spec (§4.3 step 1): a newly activated particle:
`position = originPosition`, `velocity = originVelocity * velocityScale`,
`age = 0`, `active = true`. -/
def freshParticle (cfg : Config) : Particle :=
  { position := cfg.originPosition
    velocity := Vec3.smul cfg.velocityScale cfg.originVelocity
    age := 0
    active := true
    color := fadeColor 0 }

/-- Modelled from the spec (§4.3 step 1): activate up to `n` free slots,
scanning from the lowest free index; slots beyond the available free ones
are silently dropped. -/
def activateScan (cfg : Config) : ℕ → List Particle → List Particle
  | _, [] => []
  | 0, ps => ps
  | n + 1, p :: ps =>
    if p.active then p :: activateScan cfg (n + 1) ps
    else freshParticle cfg :: activateScan cfg n ps

/-- Is some pool slot free (inactive)? -/
def hasFreeSlot (ps : List Particle) : Bool := ps.any fun p => !p.active

/-- Number of free (inactive) slots. -/
def freeCount (ps : List Particle) : ℕ := ps.countP fun p => !p.active

/-- The body of the spec's emission while-loop (§4.3 step 1), iterated at
most `k` times: stop early when no free slot remains, otherwise subtract
`releaseInterval` from the timer and activate up to `numToRelease` free
slots. -/
def emitIter (cfg : Config) : ℕ → ℚ → List Particle → ℚ × List Particle
  | 0, t, ps => (t, ps)
  | k + 1, t, ps =>
    if hasFreeSlot ps then
      emitIter cfg k (t - cfg.releaseInterval) (activateScan cfg cfg.numToRelease ps)
    else (t, ps)

/-- Modelled from the spec (§4.3 step 1): the emission phase.  The spec's
loop runs while `accumulatedTime ≥ releaseInterval` and free slots remain,
subtracting `releaseInterval` each round; a non-positive interval disables
emission (§3).  With a positive interval the loop runs exactly as long as
the timer still contains a whole interval, i.e. at most
`⌊t / releaseInterval⌋` rounds, with an early stop when slots run out —
which is what `emitIter` with that bound performs.  (`emitLoop` below is the
verbatim while-loop; `emitLoop_eq_emitPhase` proves the two agree.) -/
def emitPhase (cfg : Config) (t : ℚ) (ps : List Particle) : ℚ × List Particle :=
  if 0 < cfg.releaseInterval then
    emitIter cfg (Nat.floor (t / cfg.releaseInterval)) t ps
  else (t, ps)

set_option linter.unusedVariables false in
/-- Modelled from the spec (§4.3 step 1), verbatim while-loop form: while
`releaseInterval ≤ t` and a free slot remains (and the interval is positive,
§3: a non-positive interval disables emission), subtract the interval and
activate up to `numToRelease` slots. -/
def emitLoop (cfg : Config) (t : ℚ) (ps : List Particle) : ℚ × List Particle :=
  if h : 0 < cfg.releaseInterval ∧ cfg.releaseInterval ≤ t ∧ hasFreeSlot ps then
    emitLoop cfg (t - cfg.releaseInterval) (activateScan cfg cfg.numToRelease ps)
  else (t, ps)
termination_by Nat.floor (t / cfg.releaseInterval)
decreasing_by
  have hiv : 0 < cfg.releaseInterval := h.1
  have hle : (1 : ℚ) ≤ t / cfg.releaseInterval := (one_le_div hiv).mpr h.2.1
  have hsub : (t - cfg.releaseInterval) / cfg.releaseInterval
      = t / cfg.releaseInterval - 1 := by
    rw [sub_div, div_self (ne_of_gt hiv)]
  have hfl : Nat.floor ((t - cfg.releaseInterval) / cfg.releaseInterval)
      = Nat.floor (t / cfg.releaseInterval) - 1 := by
    rw [hsub]
    exact_mod_cast Nat.floor_sub_nat (t / cfg.releaseInterval) 1
  have hone : 1 ≤ Nat.floor (t / cfg.releaseInterval) := Nat.le_floor (by exact_mod_cast hle)
  rw [hfl]
  omega

/-- Signed distance of a position to the collision plane (§3 Collision
Plane): `dot(p - point, normal)`. -/
def signedDistance (cfg : Config) (p : Vec3) : ℚ :=
  Vec3.dot (Vec3.sub p cfg.planePoint) cfg.planeNormal

/-- Modelled from the spec (§4.3 step 2): per active particle, semi-implicit
Euler — the velocity is updated first by `(gravity + wind) * dt`, the
position then moves by the already-updated velocity, and the age advances
by `dt`.  Inactive slots are untouched. -/
def integrateParticle (cfg : Config) (dt : ℚ) (p : Particle) : Particle :=
  if p.active then
    let v := Vec3.add p.velocity (Vec3.smul dt (Vec3.add cfg.gravity cfg.wind))
    { p with
      velocity := v
      position := Vec3.add p.position (Vec3.smul dt v)
      age := p.age + dt }
  else p

/-- Modelled from the spec (§4.3 step 3): per active particle, if the new
position is on the plane's non-positive side (which subsumes having crossed
from the positive side during the step), clamp the position back onto the
plane along the normal and reflect the normal component of the velocity
with the damped-bounce formula `v - (1 + restitution) * dot(v, n) * n`. -/
def collideParticle (cfg : Config) (p : Particle) : Particle :=
  if p.active = true ∧ signedDistance cfg p.position ≤ 0 then
    { p with
      position := Vec3.sub p.position
        (Vec3.smul (signedDistance cfg p.position) cfg.planeNormal)
      velocity := Vec3.sub p.velocity
        (Vec3.smul ((1 + cfg.restitution) * Vec3.dot p.velocity cfg.planeNormal)
          cfg.planeNormal) }
  else p

/-- Modelled from the spec (§4.3 step 4): any particle whose age reached
`lifeCycle` is marked inactive; the slot keeps its other data and becomes
free for reuse. -/
def retireParticle (cfg : Config) (p : Particle) : Particle :=
  if p.active = true ∧ cfg.lifeCycle ≤ p.age then { p with active := false } else p

/-- Modelled from the spec (§4.3 step 5): recompute the color of each
still-active particle from `age / lifeCycle` with the fade policy. -/
def recolorParticle (cfg : Config) (p : Particle) : Particle :=
  if p.active then { p with color := fadeColor (p.age / cfg.lifeCycle) } else p

/-- Modelled from the spec (§4.3): one `update(deltaTimeSeconds)` call.
A negative delta is clamped to 0 defensively (§4.3 / §7).  The phases run in
the spec's order: emission, then per-particle integration, collision,
retirement and color derivation (each a map over the pool — no phase reads
another particle's state, §5). -/
def update (e : Engine) (dt : ℚ) : Engine :=
  let dtc := max dt 0
  let em := emitPhase e.cfg (e.accumulatedTime + dtc) e.particles
  let integrated := em.2.map (integrateParticle e.cfg dtc)
  let collided := integrated.map (collideParticle e.cfg)
  let retired := collided.map (retireParticle e.cfg)
  let colored := retired.map (recolorParticle e.cfg)
  { e with particles := colored, accumulatedTime := em.1 }

/-- Modelled from the spec (§4.4 reset): deactivate every particle and zero
the Emitter's accumulated timer, leaving all configuration untouched. -/
def reset (e : Engine) : Engine :=
  { e with
    particles := e.particles.map fun p => { p with active := false }
    accumulatedTime := 0 }

/-- Cached count of active slots (§3). -/
def activeCount (e : Engine) : ℕ := e.particles.countP fun p => p.active

/-- Modelled from the spec (§6): one per-particle vertex record of the
Render Snapshot buffer — `ParticleSystem::ParticleVertex`, a packed
3-component float position followed by a 4-component color. -/
structure ParticleVertex where
  position : Vec3
  color : Color
deriving DecidableEq

/-- Modelled from the spec (§4.3 step 6): the dense, index-compacted Render
Snapshot — one `(position, color)` record per active particle, inactive
slots never contribute. -/
def snapshot (e : Engine) : List ParticleVertex :=
  (e.particles.filter fun p => p.active).map fun p => ⟨p.position, p.color⟩

/-- A sequence of per-frame `update` calls. -/
def runUpdates (e : Engine) (ds : List ℚ) : Engine := ds.foldl update e

/-- The engine state after initialisation followed by the given deltas. -/
def afterUpdates (cfg : Config) (ds : List ℚ) : Engine :=
  runUpdates (initEngine cfg) ds

/-- Engine states reachable through the per-frame API: initialisation
followed by any interleaving of `update` and `reset` calls. -/
inductive Reachable : Engine → Prop
  | init (cfg : Config) : Reachable (initEngine cfg)
  | update {e : Engine} (dt : ℚ) : Reachable e → Reachable (update e dt)
  | reset {e : Engine} : Reachable e → Reachable (reset e)

/-! ### Pool bookkeeping lemmas -/

theorem freshParticle_active (cfg : Config) : (freshParticle cfg).active = true := rfl

theorem freshParticle_age (cfg : Config) : (freshParticle cfg).age = 0 := rfl

theorem activateScan_length (cfg : Config) (n : ℕ) (ps : List Particle) :
    (activateScan cfg n ps).length = ps.length := by
  induction ps generalizing n with
  | nil => cases n <;> rfl
  | cons p ps ih =>
    cases n with
    | zero => rfl
    | succ n =>
      simp only [activateScan]
      by_cases hp : p.active
      · simp [hp, ih]
      · simp [hp, ih]

theorem activateScan_mem (cfg : Config) (n : ℕ) (ps : List Particle) :
    ∀ q ∈ activateScan cfg n ps, q ∈ ps ∨ q = freshParticle cfg := by
  induction ps generalizing n with
  | nil =>
    intro q hq
    cases n <;> simp [activateScan] at hq
  | cons p ps ih =>
    intro q hq
    cases n with
    | zero =>
      exact Or.inl hq
    | succ n =>
      simp only [activateScan] at hq
      by_cases hp : p.active
      · rw [if_pos hp] at hq
        rcases List.mem_cons.mp hq with h | h
        · exact Or.inl (h ▸ List.mem_cons_self p ps)
        · rcases ih (n + 1) q h with h' | h'
          · exact Or.inl (List.mem_cons_of_mem p h')
          · exact Or.inr h'
      · rw [if_neg hp] at hq
        rcases List.mem_cons.mp hq with h | h
        · exact Or.inr h
        · rcases ih n q h with h' | h'
          · exact Or.inl (List.mem_cons_of_mem p h')
          · exact Or.inr h'

theorem countP_add_freeCount (ps : List Particle) :
    ps.countP (fun p => p.active) + freeCount ps = ps.length := by
  induction ps with
  | nil => rfl
  | cons p ps ih =>
    simp only [freeCount, List.countP_cons, List.length_cons] at *
    by_cases hp : p.active <;> simp [hp] <;> omega

theorem hasFreeSlot_iff (ps : List Particle) :
    hasFreeSlot ps = true ↔ 0 < freeCount ps := by
  simp only [hasFreeSlot, List.any_eq_true, freeCount, List.countP_pos_iff]

theorem activateScan_countP (cfg : Config) (n : ℕ) (ps : List Particle) :
    (activateScan cfg n ps).countP (fun p => p.active)
      = ps.countP (fun p => p.active) + min n (freeCount ps) := by
  induction ps generalizing n with
  | nil =>
    cases n <;> simp [activateScan, freeCount]
  | cons p ps ih =>
    cases n with
    | zero => simp [activateScan]
    | succ n =>
      simp only [activateScan]
      by_cases hp : p.active
      · rw [if_pos hp]
        simp only [List.countP_cons, hp, if_pos, ih]
        have : freeCount (p :: ps) = freeCount ps := by
          simp [freeCount, List.countP_cons, hp]
        rw [this]
        omega
      · rw [if_neg hp]
        simp only [List.countP_cons, freshParticle_active, ih]
        have hfc : freeCount (p :: ps) = freeCount ps + 1 := by
          simp [freeCount, List.countP_cons, hp]
        rw [hfc]
        have hb : p.active = false := by
          simpa using hp
        simp [hb]
        omega

theorem activateScan_freeCount (cfg : Config) (n : ℕ) (ps : List Particle) :
    freeCount (activateScan cfg n ps) = freeCount ps - min n (freeCount ps) := by
  have h1 := countP_add_freeCount (activateScan cfg n ps)
  have h2 := countP_add_freeCount ps
  have h3 := activateScan_countP cfg n ps
  have h4 := activateScan_length cfg n ps
  omega

/-! ### Emission-phase lemmas -/

theorem emitIter_length (cfg : Config) (k : ℕ) (t : ℚ) (ps : List Particle) :
    (emitIter cfg k t ps).2.length = ps.length := by
  induction k generalizing t ps with
  | zero => rfl
  | succ k ih =>
    simp only [emitIter]
    by_cases hf : hasFreeSlot ps
    · rw [if_pos hf, ih, activateScan_length]
    · rw [if_neg hf]

theorem emitIter_mem (cfg : Config) (k : ℕ) (t : ℚ) (ps : List Particle) :
    ∀ q ∈ (emitIter cfg k t ps).2, q ∈ ps ∨ q = freshParticle cfg := by
  induction k generalizing t ps with
  | zero => intro q hq; exact Or.inl hq
  | succ k ih =>
    intro q hq
    simp only [emitIter] at hq
    by_cases hf : hasFreeSlot ps
    · rw [if_pos hf] at hq
      rcases ih _ _ q hq with h | h
      · exact activateScan_mem cfg cfg.numToRelease ps q h
      · exact Or.inr h
    · rw [if_neg hf] at hq
      exact Or.inl hq

theorem emitIter_fst_nonneg (cfg : Config) (k : ℕ) (t : ℚ) (ps : List Particle)
    (hiv : 0 ≤ cfg.releaseInterval) (hk : cfg.releaseInterval * (k : ℚ) ≤ t)
    (ht : 0 ≤ t) : 0 ≤ (emitIter cfg k t ps).1 := by
  induction k generalizing t ps with
  | zero => exact ht
  | succ k ih =>
    simp only [emitIter]
    by_cases hf : hasFreeSlot ps
    · rw [if_pos hf]
      have hcast : ((k + 1 : ℕ) : ℚ) = (k : ℚ) + 1 := by push_cast; ring
      rw [hcast] at hk
      have h1 : cfg.releaseInterval * (k : ℚ) ≤ t - cfg.releaseInterval := by
        nlinarith
      have h2 : (0 : ℚ) ≤ t - cfg.releaseInterval := by
        have hk0 : (0 : ℚ) ≤ (k : ℚ) := Nat.cast_nonneg k
        nlinarith
      exact ih _ _ h1 h2
    · rw [if_neg hf]; exact ht

theorem emitIter_drain (cfg : Config) (k : ℕ) (t : ℚ) (ps : List Particle)
    (hn : 1 ≤ cfg.numToRelease)
    (hfree : cfg.numToRelease * k ≤ freeCount ps) :
    (emitIter cfg k t ps).1 = t - (k : ℚ) * cfg.releaseInterval ∧
    (emitIter cfg k t ps).2.countP (fun p => p.active)
      = ps.countP (fun p => p.active) + cfg.numToRelease * k := by
  induction k generalizing t ps with
  | zero => simp [emitIter]
  | succ k ih =>
    have hmul : cfg.numToRelease * (k + 1) = cfg.numToRelease * k + cfg.numToRelease :=
      Nat.mul_succ cfg.numToRelease k
    have hnfree : cfg.numToRelease ≤ freeCount ps := by omega
    have hpos : 0 < freeCount ps := by omega
    have hf : hasFreeSlot ps = true := (hasFreeSlot_iff ps).mpr hpos
    simp only [emitIter, if_pos hf]
    have hmin : min cfg.numToRelease (freeCount ps) = cfg.numToRelease := by omega
    have hfree' : cfg.numToRelease * k ≤ freeCount (activateScan cfg cfg.numToRelease ps) := by
      rw [activateScan_freeCount, hmin]
      omega
    obtain ⟨h1, h2⟩ := ih (t - cfg.releaseInterval) _ hfree'
    constructor
    · rw [h1]; push_cast; ring
    · rw [h2, activateScan_countP, hmin]
      omega

theorem emitIter_fst_lt (cfg : Config) (k : ℕ) (t : ℚ) (ps : List Particle)
    (hb : t < cfg.releaseInterval * ((k : ℚ) + 1))
    (hfree : hasFreeSlot (emitIter cfg k t ps).2 = true) :
    (emitIter cfg k t ps).1 < cfg.releaseInterval := by
  induction k generalizing t ps with
  | zero =>
    simpa using hb.trans_eq (by ring)
  | succ k ih =>
    simp only [emitIter] at hfree ⊢
    by_cases hf : hasFreeSlot ps
    · rw [if_pos hf] at hfree ⊢
      refine ih _ _ ?_ hfree
      push_cast at hb ⊢
      linarith
    · rw [if_neg hf] at hfree
      exact absurd hfree (by simp [hf])

theorem emitPhase_length (cfg : Config) (t : ℚ) (ps : List Particle) :
    (emitPhase cfg t ps).2.length = ps.length := by
  unfold emitPhase
  by_cases hiv : 0 < cfg.releaseInterval
  · rw [if_pos hiv, emitIter_length]
  · rw [if_neg hiv]

theorem emitPhase_mem (cfg : Config) (t : ℚ) (ps : List Particle) :
    ∀ q ∈ (emitPhase cfg t ps).2, q ∈ ps ∨ q = freshParticle cfg := by
  unfold emitPhase
  by_cases hiv : 0 < cfg.releaseInterval
  · rw [if_pos hiv]; exact emitIter_mem cfg _ t ps
  · rw [if_neg hiv]; exact fun q hq => Or.inl hq

theorem emitPhase_fst_nonneg (cfg : Config) (t : ℚ) (ps : List Particle)
    (ht : 0 ≤ t) : 0 ≤ (emitPhase cfg t ps).1 := by
  unfold emitPhase
  by_cases hiv : 0 < cfg.releaseInterval
  · rw [if_pos hiv]
    refine emitIter_fst_nonneg cfg _ t ps hiv.le ?_ ht
    have h1 : ((Nat.floor (t / cfg.releaseInterval) : ℚ)) ≤ t / cfg.releaseInterval :=
      Nat.floor_le (div_nonneg ht hiv.le)
    calc cfg.releaseInterval * ((Nat.floor (t / cfg.releaseInterval) : ℚ))
        ≤ cfg.releaseInterval * (t / cfg.releaseInterval) :=
          mul_le_mul_of_nonneg_left h1 hiv.le
      _ = t := by field_simp
  · rw [if_neg hiv]; exact ht

theorem emitPhase_fst_lt_of_free (cfg : Config) (t : ℚ) (ps : List Particle)
    (hiv : 0 < cfg.releaseInterval)
    (hfree : hasFreeSlot (emitPhase cfg t ps).2 = true) :
    (emitPhase cfg t ps).1 < cfg.releaseInterval := by
  rw [emitPhase, if_pos hiv] at hfree ⊢
  refine emitIter_fst_lt cfg _ t ps ?_ hfree
  have h1 : t / cfg.releaseInterval < (Nat.floor (t / cfg.releaseInterval) : ℚ) + 1 :=
    Nat.lt_floor_add_one _
  calc t = cfg.releaseInterval * (t / cfg.releaseInterval) := by field_simp
    _ < cfg.releaseInterval * ((Nat.floor (t / cfg.releaseInterval) : ℚ) + 1) :=
        mul_lt_mul_of_pos_left h1 hiv

theorem emitPhase_drain (cfg : Config) (t : ℚ) (ps : List Particle)
    (hiv : 0 < cfg.releaseInterval) (hn : 1 ≤ cfg.numToRelease)
    (hfree : cfg.numToRelease * Nat.floor (t / cfg.releaseInterval) ≤ freeCount ps) :
    (emitPhase cfg t ps).1
        = t - (Nat.floor (t / cfg.releaseInterval) : ℚ) * cfg.releaseInterval ∧
    (emitPhase cfg t ps).2.countP (fun p => p.active)
        = ps.countP (fun p => p.active)
          + cfg.numToRelease * Nat.floor (t / cfg.releaseInterval) := by
  rw [emitPhase, if_pos hiv]
  exact emitIter_drain cfg _ t ps hn hfree

/-- The spec's verbatim emission while-loop agrees with the
iteration-bounded form used inside `update`. -/
theorem emitLoop_eq_emitPhase (cfg : Config) (t : ℚ) (ps : List Particle) :
    emitLoop cfg t ps = emitPhase cfg t ps := by
  by_cases hiv : 0 < cfg.releaseInterval
  · rw [emitPhase, if_pos hiv]
    suffices h : ∀ (k : ℕ) (t : ℚ) (ps : List Particle),
        k = Nat.floor (t / cfg.releaseInterval) →
        emitLoop cfg t ps = emitIter cfg k t ps by
      exact h _ t ps rfl
    intro k
    induction k with
    | zero =>
      intro t ps hk
      have hlt : t < cfg.releaseInterval := by
        by_contra hge
        push_neg at hge
        have h1 : (1 : ℚ) ≤ t / cfg.releaseInterval := (one_le_div hiv).mpr hge
        have h2 : 1 ≤ Nat.floor (t / cfg.releaseInterval) :=
          Nat.le_floor (by exact_mod_cast h1)
        omega
      rw [emitLoop]
      rw [dif_neg (by push_neg; intro _ h; exact absurd h (not_le.mpr hlt))]
      rfl
    | succ k ih =>
      intro t ps hk
      have hge : cfg.releaseInterval ≤ t := by
        by_contra hlt
        push_neg at hlt
        have h1 : t / cfg.releaseInterval < 1 := (div_lt_one hiv).mpr hlt
        have h2 : Nat.floor (t / cfg.releaseInterval) = 0 := by
          rcases le_or_lt t 0 with h | h
          · exact Nat.floor_eq_zero.mpr (h1)
          · exact Nat.floor_eq_zero.mpr h1
        omega
      have hstep : k = Nat.floor ((t - cfg.releaseInterval) / cfg.releaseInterval) := by
        have hsub : (t - cfg.releaseInterval) / cfg.releaseInterval
            = t / cfg.releaseInterval - 1 := by
          rw [sub_div, div_self (ne_of_gt hiv)]
        have hfl : Nat.floor ((t - cfg.releaseInterval) / cfg.releaseInterval)
            = Nat.floor (t / cfg.releaseInterval) - 1 := by
          rw [hsub]
          exact_mod_cast Nat.floor_sub_nat (t / cfg.releaseInterval) 1
        omega
      by_cases hf : hasFreeSlot ps
      · rw [emitLoop, dif_pos ⟨hiv, hge, hf⟩]
        simp only [emitIter, if_pos hf]
        exact ih _ _ hstep
      · rw [emitLoop, dif_neg (by intro hcon; exact hf hcon.2.2)]
        simp only [emitIter, if_neg hf]
  · rw [emitPhase, if_neg hiv, emitLoop,
      dif_neg (by intro hcon; exact hiv hcon.1)]

/-! ### Update-step lemmas -/

theorem update_cfg (e : Engine) (dt : ℚ) : (update e dt).cfg = e.cfg := rfl

theorem update_accumulatedTime (e : Engine) (dt : ℚ) :
    (update e dt).accumulatedTime
      = (emitPhase e.cfg (e.accumulatedTime + max dt 0) e.particles).1 := rfl

theorem update_particles (e : Engine) (dt : ℚ) :
    (update e dt).particles
      = ((((emitPhase e.cfg (e.accumulatedTime + max dt 0) e.particles).2.map
            (integrateParticle e.cfg (max dt 0))).map
          (collideParticle e.cfg)).map
        (retireParticle e.cfg)).map (recolorParticle e.cfg) := rfl

theorem reset_cfg (e : Engine) : (reset e).cfg = e.cfg := rfl

theorem integrateParticle_active (cfg : Config) (dt : ℚ) (p : Particle) :
    (integrateParticle cfg dt p).active = p.active := by
  unfold integrateParticle
  by_cases hp : p.active <;> simp [hp]

theorem integrateParticle_age (cfg : Config) (dt : ℚ) (p : Particle) :
    (integrateParticle cfg dt p).age = if p.active then p.age + dt else p.age := by
  unfold integrateParticle
  by_cases hp : p.active <;> simp [hp]

theorem collideParticle_active (cfg : Config) (p : Particle) :
    (collideParticle cfg p).active = p.active := by
  unfold collideParticle
  by_cases hp : p.active = true ∧ signedDistance cfg p.position ≤ 0 <;> simp [hp]

theorem collideParticle_age (cfg : Config) (p : Particle) :
    (collideParticle cfg p).age = p.age := by
  unfold collideParticle
  by_cases hp : p.active = true ∧ signedDistance cfg p.position ≤ 0 <;> simp [hp]

theorem retireParticle_age (cfg : Config) (p : Particle) :
    (retireParticle cfg p).age = p.age := by
  unfold retireParticle
  by_cases hp : p.active = true ∧ cfg.lifeCycle ≤ p.age <;> simp [hp]

theorem retireParticle_position (cfg : Config) (p : Particle) :
    (retireParticle cfg p).position = p.position := by
  unfold retireParticle
  by_cases hp : p.active = true ∧ cfg.lifeCycle ≤ p.age <;> simp [hp]

theorem recolorParticle_active (cfg : Config) (p : Particle) :
    (recolorParticle cfg p).active = p.active := by
  unfold recolorParticle
  by_cases hp : p.active <;> simp [hp]

theorem recolorParticle_age (cfg : Config) (p : Particle) :
    (recolorParticle cfg p).age = p.age := by
  unfold recolorParticle
  by_cases hp : p.active <;> simp [hp]

theorem recolorParticle_position (cfg : Config) (p : Particle) :
    (recolorParticle cfg p).position = p.position := by
  unfold recolorParticle
  by_cases hp : p.active <;> simp [hp]

theorem update_mem (e : Engine) (dt : ℚ) :
    ∀ q ∈ (update e dt).particles, ∃ p,
      (p ∈ e.particles ∨ p = freshParticle e.cfg) ∧
      q = recolorParticle e.cfg (retireParticle e.cfg (collideParticle e.cfg
            (integrateParticle e.cfg (max dt 0) p))) := by
  intro q hq
  rw [update_particles] at hq
  simp only [List.mem_map] at hq
  obtain ⟨r, ⟨c, ⟨i, ⟨p0, hp0, rfl⟩, rfl⟩, rfl⟩, rfl⟩ := hq
  exact ⟨p0, emitPhase_mem _ _ _ p0 hp0, rfl⟩

theorem update_length (e : Engine) (dt : ℚ) :
    (update e dt).particles.length = e.particles.length := by
  rw [update_particles]
  simp [emitPhase_length]

theorem reset_length (e : Engine) :
    (reset e).particles.length = e.particles.length := by
  simp [reset]

theorem reachable_length {e : Engine} (h : Reachable e) :
    e.particles.length = e.cfg.maxParticles := by
  induction h with
  | init cfg => simp [initEngine]
  | update dt _ ih => rw [update_length, update_cfg, ih]
  | reset _ ih => rw [reset_length, reset_cfg, ih]

theorem update_age_nonneg {e : Engine} {dt : ℚ}
    (h : ∀ p ∈ e.particles, 0 ≤ p.age) :
    ∀ q ∈ (update e dt).particles, 0 ≤ q.age := by
  intro q hq
  obtain ⟨p, hp, rfl⟩ := update_mem e dt q hq
  rw [recolorParticle_age, retireParticle_age, collideParticle_age,
    integrateParticle_age]
  have hage : 0 ≤ p.age := by
    rcases hp with hp | hp
    · exact h p hp
    · rw [hp, freshParticle_age]
  have hdt : (0 : ℚ) ≤ max dt 0 := le_max_right dt 0
  by_cases hact : p.active <;> simp [hact] <;> linarith

theorem update_expired_inactive (e : Engine) (dt : ℚ) :
    ∀ q ∈ (update e dt).particles,
      e.cfg.lifeCycle ≤ q.age → q.active = false := by
  intro q hq hage
  obtain ⟨p, _, rfl⟩ := update_mem e dt q hq
  set c := collideParticle e.cfg (integrateParticle e.cfg (max dt 0) p) with hc
  rw [recolorParticle_age, retireParticle_age] at hage
  rw [recolorParticle_active]
  by_cases hr : c.active = true ∧ e.cfg.lifeCycle ≤ c.age
  · unfold retireParticle
    rw [if_pos hr]
  · unfold retireParticle
    rw [if_neg hr]
    rcases not_and_or.mp hr with h' | h'
    · simpa using h'
    · exact absurd hage h'

theorem reachable_age_nonneg {e : Engine} (h : Reachable e) :
    ∀ p ∈ e.particles, 0 ≤ p.age := by
  induction h with
  | init cfg =>
    intro p hp
    rw [List.eq_of_mem_replicate hp]
    rfl
  | update dt _ ih => exact update_age_nonneg ih
  | reset _ ih =>
    intro p hp
    simp only [reset, List.mem_map] at hp
    obtain ⟨r, hr, rfl⟩ := hp
    exact ih r hr

theorem reachable_expired_inactive {e : Engine} (h : Reachable e) :
    ∀ p ∈ e.particles, e.cfg.lifeCycle ≤ p.age → p.active = false := by
  induction h with
  | init cfg =>
    intro p hp _
    rw [List.eq_of_mem_replicate hp]
    rfl
  | update dt _ _ => exact update_expired_inactive _ _
  | reset _ _ =>
    intro p hp _
    simp only [reset, List.mem_map] at hp
    obtain ⟨r, _, rfl⟩ := hp
    rfl

/-! ### Vertex-input byte layout (claim C1)

`ParticleSystem::ParticleVertex` is, per the spec (§6), a packed structure
of a 3-float position followed by a 4-float color; with 4-byte floats its
byte layout is position at offset 0 (12 bytes), color at offset 12
(16 bytes), stride 28.  The two demos configure vertex-input descriptions
against this record, embedded below from their sources. -/

/-- One vertex-input attribute: shader location, number of 32-bit float
components of its format, and byte offset within the record. -/
structure VertexAttr where
  location : ℕ
  components : ℕ
  offset : ℕ
deriving DecidableEq

/-- A vertex-input description: binding index, byte stride, attributes. -/
structure VertexInputDesc where
  binding : ℕ
  stride : ℕ
  attrs : List VertexAttr
deriving DecidableEq

/-- Byte size of a C++ `float`. -/
def floatSize : ℕ := 4

/-- `offsetof(ParticleSystem::ParticleVertex, position)`. -/
def positionOffset : ℕ := 0

/-- `offsetof(ParticleSystem::ParticleVertex, color)`: past the packed
3-float position. -/
def colorOffset : ℕ := 3 * floatSize

/-- `sizeof(ParticleSystem::ParticleVertex)`: packed 3-float position plus
4-float color. -/
def particleVertexStride : ℕ := 3 * floatSize + 4 * floatSize

/-- The layout of the snapshot's own vertex record (spec §6): binding 0,
position (3 components) at its offset, color (4 components) at its offset,
record stride as declared. -/
def particleVertexDesc : VertexInputDesc :=
  ⟨0, particleVertexStride,
    [⟨0, 3, positionOffset⟩, ⟨1, 4, colorOffset⟩]⟩

/-- The vertex-input description of `14-particles.cpp` `setupPipeline`
(lines 134–140): binding 0 with stride `sizeof(ParticleVertex)`;
attribute location 0 with format `VK_FORMAT_R32G32B32_SFLOAT`
(3 components) at `offsetof(position)`; attribute location 1 with format
`VK_FORMAT_R32G32B32_SFLOAT` (3 components) at `offsetof(color)`. -/
def vertexInput14 : VertexInputDesc :=
  ⟨0, particleVertexStride,
    [⟨0, 3, positionOffset⟩, ⟨1, 3, colorOffset⟩]⟩

/-- The vertex-input description of `15-particles.cpp` `setupPipeline`
(lines 119–121): a `VertexInputStructure<ParticleVertex>` on binding 0
whose attribute formats are deduced from the member pointers —
`&ParticleVertex::position` (`float3`, 3 components) at location 0 and
`&ParticleVertex::color` (`float4`, 4 components) at location 1. -/
def vertexInput15 : VertexInputDesc :=
  ⟨0, particleVertexStride,
    [⟨0, 3, positionOffset⟩, ⟨1, 4, colorOffset⟩]⟩

/-! ### Per-frame view transform of the particle demos (claim C9)

`ParticlesApp::updatePerspectiveTransform` is identical in
`14-particles.cpp` (lines 94–104) and `15-particles.cpp` (lines 87–98).
The `rapid` matrix library is external: matrices, `rotationY` and matrix
multiplication are abstract parameters here, as is the degree-to-radian
conversion. -/

/-- `speed = 0.05f` in `updatePerspectiveTransform` of both demos. -/
def angleSpeed : ℚ := 1/20

/-- Embedded from `ParticlesApp::updatePerspectiveTransform`: the
function-local static `angle` accumulates `millisecondsElapsed() * speed`;
the world matrix is `rotationY(radians(spinX / 2))`; the value stored in the
mapped uniform buffer is `world * viewProj`.  Returns (matrix written,
new angle accumulator). -/
def updatePerspectiveTransform {M : Type} (radians : ℚ → ℚ) (rotationY : ℚ → M)
    (matMul : M → M → M) (spinX : ℚ) (viewProj : M)
    (millisecondsElapsed : ℚ) (angle : ℚ) : M × ℚ :=
  let angle1 := angle + millisecondsElapsed * angleSpeed
  let world := rotationY (radians (spinX / 2))
  (matMul world viewProj, angle1)

end ParticleSystem

namespace TextureArray

/-! ### Texture-array demo LOD selection (claim C10)

Embedded from `07-texture-array.cpp`: `TextureArrayApp` holds a `float lod`
initialised to 0; `onKeyDown` (lines 51–71) raises it by 1 on PgUp while
`lod < getMipLevels() - 1` and lowers it by 1 on PgDn while `lod > 0`,
calling `updateLod` after each change; `updateLod` (lines 103–111) writes
the current `lod` into the `TexParameters` uniform buffer.
`createUniformBuffers` (lines 190–195) performs one initial `updateLod`. -/

/-- The key events the demo's `onKeyDown` distinguishes; every other key
falls through to the base class without touching `lod`. -/
inductive Key where
  | pgUp
  | pgDn
  | other
deriving DecidableEq

/-- Demo state: the current `lod` and the sequence of values written to the
`TexParameters` uniform buffer so far (most recent last). -/
structure App where
  lod : ℚ
  written : List ℚ
deriving DecidableEq

/-- `getMipLevels() - 1` as computed in C++ on `uint32_t`, with wraparound
at zero. -/
def mipLevelsPred (mipLevels : ℕ) : ℕ := (mipLevels + (2 ^ 32 - 1)) % 2 ^ 32

/-- `TextureArrayApp::updateLod`: writes the current `lod` into the
uniform buffer. -/
def updateLod (s : App) : App := { s with written := s.written ++ [s.lod] }

/-- `TextureArrayApp::onKeyDown`. -/
def onKeyDown (mipLevels : ℕ) (s : App) (k : Key) : App :=
  match k with
  | Key.pgUp =>
    if s.lod < (mipLevelsPred mipLevels : ℚ) then updateLod { s with lod := s.lod + 1 }
    else s
  | Key.pgDn =>
    if 0 < s.lod then updateLod { s with lod := s.lod - 1 }
    else s
  | Key.other => s

/-- State after construction: `lod = 0` and the single initial `updateLod`
issued by `createUniformBuffers`. -/
def initApp : App := updateLod { lod := 0, written := [] }

/-- State after construction followed by a sequence of key events. -/
def runKeys (mipLevels : ℕ) (ks : List Key) : App :=
  ks.foldl (onKeyDown mipLevels) initApp

end TextureArray

/-! ## Claim theorems -/

namespace ParticleSystem

/-- Claim C1: the spec's vertex record (3-float position then 4-float
color, packed) should match both demos' vertex-input descriptions exactly.
`15-particles` matches, but `14-particles` declares the color attribute
(location 1) with a 3-component format, disagreeing with the record's
4-component color — evaluating the code at the failing input. -/
theorem C1_color_format_mismatch :
    particleVertexDesc = vertexInput15 ∧
    vertexInput14 ≠ particleVertexDesc ∧
    (vertexInput14.attrs.getD 1 ⟨0, 0, 0⟩).components = 3 ∧
    (particleVertexDesc.attrs.getD 1 ⟨0, 0, 0⟩).components = 4 := by
  refine ⟨rfl, by decide, rfl, rfl⟩

/-- Claim C4: for every active particle, `update`'s integration step is
semi-implicit Euler in this order — the velocity is incremented by
`(gravity + wind) * dt` first, the position then moves by the
already-updated velocity times `dt`, and the age grows by `dt`. -/
theorem C4_semi_implicit_euler (cfg : Config) (dt : ℚ) (p : Particle)
    (h : p.active = true) :
    (integrateParticle cfg dt p).velocity
        = Vec3.add p.velocity (Vec3.smul dt (Vec3.add cfg.gravity cfg.wind)) ∧
    (integrateParticle cfg dt p).position
        = Vec3.add p.position (Vec3.smul dt (integrateParticle cfg dt p).velocity) ∧
    (integrateParticle cfg dt p).age = p.age + dt := by
  unfold integrateParticle
  simp [h]

/-- Witness for C4 at the demo configuration's fresh particle. -/
theorem C4_witness :
    (freshParticle demoConfig).active = true ∧
    ((integrateParticle demoConfig (1/20) (freshParticle demoConfig)).velocity
        = Vec3.add (freshParticle demoConfig).velocity
            (Vec3.smul (1/20) (Vec3.add demoConfig.gravity demoConfig.wind)) ∧
     (integrateParticle demoConfig (1/20) (freshParticle demoConfig)).position
        = Vec3.add (freshParticle demoConfig).position
            (Vec3.smul (1/20)
              (integrateParticle demoConfig (1/20) (freshParticle demoConfig)).velocity) ∧
     (integrateParticle demoConfig (1/20) (freshParticle demoConfig)).age
        = (freshParticle demoConfig).age + 1/20) :=
  ⟨rfl, C4_semi_implicit_euler demoConfig (1/20) (freshParticle demoConfig) rfl⟩

/-- Claim C6: in every reachable engine state the number of active
particles is bounded by the fixed capacity installed at initialisation. -/
theorem C6_activeCount_le_capacity {e : Engine} (h : Reachable e) :
    activeCount e ≤ e.cfg.maxParticles := by
  have hlen := reachable_length h
  calc activeCount e ≤ e.particles.length := List.countP_le_length _
    _ = e.cfg.maxParticles := hlen

/-- Witness for C6 on a reachable state after one update of the demo
configuration. -/
theorem C6_witness :
    Reachable (update (initEngine demoConfig) (1/20)) ∧
    activeCount (update (initEngine demoConfig) (1/20))
      ≤ (update (initEngine demoConfig) (1/20)).cfg.maxParticles :=
  ⟨Reachable.update (1/20) (Reachable.init demoConfig),
   C6_activeCount_le_capacity (Reachable.update (1/20) (Reachable.init demoConfig))⟩

/-- Claim C7: `reset` deactivates every particle, zeroes the Emitter's
accumulated timer, leaves the configuration untouched, and is idempotent:
a second `reset` again yields zero active particles and a zero timer. -/
theorem C7_reset_idempotent (e : Engine) :
    (reset e).cfg = e.cfg ∧
    (∀ p ∈ (reset e).particles, p.active = false) ∧
    (reset e).accumulatedTime = 0 ∧
    activeCount (reset e) = 0 ∧
    (reset (reset e)).accumulatedTime = 0 ∧
    activeCount (reset (reset e)) = 0 := by
  refine ⟨rfl, ?_, rfl, ?_, rfl, ?_⟩
  · intro p hp
    simp only [reset, List.mem_map] at hp
    obtain ⟨r, _, rfl⟩ := hp
    rfl
  · simp [activeCount, reset, List.countP_map, Function.comp_def]
  · simp [activeCount, reset, List.countP_map, Function.comp_def]

/-- Claim C9: in both particle demos, the matrix that
`updatePerspectiveTransform` writes to the uniform buffer equals
`rotationY(radians(spinX / 2)) * viewProj` and is independent of the
per-frame timer value and of the function-local static angle accumulator
(the accumulator is dead state). -/
theorem C9_transform_ignores_timer {M : Type} (radians : ℚ → ℚ)
    (rotationY : ℚ → M) (matMul : M → M → M) (spinX : ℚ) (viewProj : M)
    (t1 t2 a1 a2 : ℚ) :
    (updatePerspectiveTransform radians rotationY matMul spinX viewProj t1 a1).1
        = matMul (rotationY (radians (spinX / 2))) viewProj ∧
    (updatePerspectiveTransform radians rotationY matMul spinX viewProj t1 a1).1
        = (updatePerspectiveTransform radians rotationY matMul spinX viewProj t2 a2).1 :=
  ⟨rfl, rfl⟩

end ParticleSystem

namespace TextureArray

/-- With at least one mip level (any successfully created image has one)
and fewer than `2^32`, the `uint32_t` computation `getMipLevels() - 1`
is the plain predecessor. -/
theorem mipLevelsPred_eq (m : ℕ) (h1 : 1 ≤ m) (h2 : m < 2 ^ 32) :
    mipLevelsPred m = m - 1 := by
  unfold mipLevelsPred
  omega

/-- The LOD values the demo can hold: natural numbers below `mipLevels`. -/
def InRange (m : ℕ) (v : ℚ) : Prop := ∃ j : ℕ, v = (j : ℚ) ∧ j + 1 ≤ m

theorem onKeyDown_inv (m : ℕ) (h1 : 1 ≤ m) (h2 : m < 2 ^ 32) (s : App) (k : Key)
    (hs : InRange m s.lod ∧ ∀ v ∈ s.written, InRange m v) :
    InRange m (onKeyDown m s k).lod ∧
    ∀ v ∈ (onKeyDown m s k).written, InRange m v := by
  obtain ⟨⟨j, hj, hjm⟩, hw⟩ := hs
  cases k with
  | pgUp =>
    simp only [onKeyDown]
    by_cases hc : s.lod < (mipLevelsPred m : ℚ)
    · rw [if_pos hc]
      have hjlt : j < m - 1 := by
        rw [hj, mipLevelsPred_eq m h1 h2] at hc
        exact_mod_cast hc
      have hlod : s.lod + 1 = ((j + 1 : ℕ) : ℚ) := by
        rw [hj]; push_cast; ring
      refine ⟨⟨j + 1, hlod, by omega⟩, ?_⟩
      intro v hv
      simp only [updateLod, List.mem_append, List.mem_singleton] at hv
      rcases hv with hv | hv
      · exact hw v hv
      · exact ⟨j + 1, by rw [hv]; exact hlod, by omega⟩
    · rw [if_neg hc]
      exact ⟨⟨j, hj, hjm⟩, hw⟩
  | pgDn =>
    simp only [onKeyDown]
    by_cases hc : 0 < s.lod
    · rw [if_pos hc]
      have hj1 : 1 ≤ j := by
        by_contra hj0
        push_neg at hj0
        interval_cases j
        rw [hj] at hc
        simp at hc
      have hlod : s.lod - 1 = ((j - 1 : ℕ) : ℚ) := by
        rw [hj]
        have : ((j - 1 : ℕ) : ℚ) = (j : ℚ) - 1 := by
          push_cast [hj1]
          ring
        rw [this]
      refine ⟨⟨j - 1, hlod, by omega⟩, ?_⟩
      intro v hv
      simp only [updateLod, List.mem_append, List.mem_singleton] at hv
      rcases hv with hv | hv
      · exact hw v hv
      · exact ⟨j - 1, by rw [hv]; exact hlod, by omega⟩
    · rw [if_neg hc]
      exact ⟨⟨j, hj, hjm⟩, hw⟩
  | other =>
    exact ⟨⟨j, hj, hjm⟩, hw⟩

theorem runKeys_inv (m : ℕ) (h1 : 1 ≤ m) (h2 : m < 2 ^ 32) (ks : List Key) :
    InRange m (runKeys m ks).lod ∧
    ∀ v ∈ (runKeys m ks).written, InRange m v := by
  suffices h : ∀ (ks : List Key) (s : App),
      (InRange m s.lod ∧ ∀ v ∈ s.written, InRange m v) →
      InRange m (ks.foldl (onKeyDown m) s).lod ∧
      ∀ v ∈ (ks.foldl (onKeyDown m) s).written, InRange m v by
    refine h ks initApp ⟨⟨0, by simp [initApp, updateLod], h1⟩, ?_⟩
    intro v hv
    simp only [initApp, updateLod, List.nil_append, List.mem_singleton] at hv
    exact ⟨0, by rw [hv]; simp, h1⟩
  intro ks
  induction ks with
  | nil => intro s hs; exact hs
  | cons k ks ih =>
    intro s hs
    exact ih _ (onKeyDown_inv m h1 h2 s k hs)

/-- Claim C10: starting from `lod = 0`, every sequence of PgUp/PgDn key
events keeps `lod` within `[0, mipLevels - 1]`, and every value
`updateLod` writes to the uniform buffer lies in that range. -/
theorem C10_lod_in_range (m : ℕ) (h1 : 1 ≤ m) (h2 : m < 2 ^ 32)
    (ks : List Key) :
    (0 ≤ (runKeys m ks).lod ∧ (runKeys m ks).lod ≤ (m : ℚ) - 1) ∧
    ∀ v ∈ (runKeys m ks).written, 0 ≤ v ∧ v ≤ (m : ℚ) - 1 := by
  obtain ⟨⟨j, hj, hjm⟩, hw⟩ := runKeys_inv m h1 h2 ks
  have hconv : ∀ (v : ℚ), InRange m v → 0 ≤ v ∧ v ≤ (m : ℚ) - 1 := by
    rintro v ⟨i, rfl, him⟩
    constructor
    · exact_mod_cast Nat.zero_le i
    · have : ((i : ℚ) + 1) ≤ (m : ℚ) := by exact_mod_cast him
      linarith
  exact ⟨hconv _ ⟨j, hj, hjm⟩, fun v hv => hconv v (hw v hv)⟩

/-- Witness for C10: six-layer dice texture array, three key events. -/
theorem C10_witness :
    1 ≤ 6 ∧ 6 < 2 ^ 32 ∧
    ((0 ≤ (runKeys 6 [Key.pgUp, Key.pgUp, Key.pgDn]).lod ∧
      (runKeys 6 [Key.pgUp, Key.pgUp, Key.pgDn]).lod ≤ (6 : ℚ) - 1) ∧
     ∀ v ∈ (runKeys 6 [Key.pgUp, Key.pgUp, Key.pgDn]).written,
       0 ≤ v ∧ v ≤ (6 : ℚ) - 1) :=
  ⟨by decide, by decide, C10_lod_in_range 6 (by decide) (by decide) _⟩

end TextureArray

namespace ParticleSystem

set_option linter.unusedVariables false in
/-- Claim C8: with the demos' collision plane through the origin with
normal `(0,1,0)` (and the demo gravity `(0,-9.8,0)`), no active particle
ever ends an `update` below the plane: the collision step clamps the
position onto the plane exactly, so the component along the normal never
drops below zero (and hence never below any non-negative tolerance). -/
theorem C8_plane_containment (e : Engine) (dt : ℚ)
    (hn : e.cfg.planeNormal = ⟨0, 1, 0⟩)
    (hp : e.cfg.planePoint = Vec3.zero)
    (hg : e.cfg.gravity = ⟨0, -49/5, 0⟩) :
    ∀ q ∈ (update e dt).particles, q.active = true → 0 ≤ q.position.y := by
  intro q hq hact
  obtain ⟨p, _, rfl⟩ := update_mem e dt q hq
  set i := integrateParticle e.cfg (max dt 0) p with hi
  set c := collideParticle e.cfg i with hcdef
  rw [recolorParticle_active] at hact
  have hcact : c.active = true := by
    unfold retireParticle at hact
    by_cases hr : c.active = true ∧ e.cfg.lifeCycle ≤ c.age
    · rw [if_pos hr] at hact
      exact absurd hact (by simp)
    · rw [if_neg hr] at hact
      exact hact
  rw [recolorParticle_position, retireParticle_position]
  have hsd : signedDistance e.cfg i.position = i.position.y := by
    unfold signedDistance Vec3.dot Vec3.sub
    rw [hn, hp]
    show (i.position.x - Vec3.zero.x) * 0 + (i.position.y - Vec3.zero.y) * 1
        + (i.position.z - Vec3.zero.z) * 0 = i.position.y
    unfold Vec3.zero
    ring
  have hiact : i.active = true := by
    rw [hcdef, collideParticle_active] at hcact
    exact hcact
  rw [hcdef]
  unfold collideParticle
  by_cases hcol : i.active = true ∧ signedDistance e.cfg i.position ≤ 0
  · rw [if_pos hcol]
    simp only [Vec3.sub, Vec3.smul, hn, hsd]
    ring_nf
    exact le_refl 0
  · rw [if_neg hcol]
    have hpos : 0 < signedDistance e.cfg i.position := by
      rcases not_and_or.mp hcol with h | h
      · exact absurd hiact h
      · exact not_le.mp h
    rw [hsd] at hpos
    exact hpos.le

/-- Witness for C8: the demo configuration after one update. -/
theorem C8_witness :
    (initEngine demoConfig).cfg.planeNormal = ⟨0, 1, 0⟩ ∧
    (initEngine demoConfig).cfg.planePoint = Vec3.zero ∧
    (initEngine demoConfig).cfg.gravity = ⟨0, -49/5, 0⟩ ∧
    ∀ q ∈ (update (initEngine demoConfig) (1/20)).particles,
      q.active = true → 0 ≤ q.position.y :=
  ⟨rfl, rfl, rfl,
   C8_plane_containment (initEngine demoConfig) (1/20) rfl rfl rfl⟩

end ParticleSystem

namespace ParticleSystem

theorem update_acc_nonneg {e : Engine} (dt : ℚ)
    (h : 0 ≤ e.accumulatedTime) : 0 ≤ (update e dt).accumulatedTime := by
  rw [update_accumulatedTime]
  exact emitPhase_fst_nonneg _ _ _ (add_nonneg h (le_max_right dt 0))

theorem runUpdates_acc_nonneg (e : Engine) (ds : List ℚ)
    (h : 0 ≤ e.accumulatedTime) : 0 ≤ (runUpdates e ds).accumulatedTime := by
  induction ds generalizing e with
  | nil => exact h
  | cons d ds ih => exact ih _ (update_acc_nonneg d h)

theorem runUpdates_cfg (e : Engine) (ds : List ℚ) :
    (runUpdates e ds).cfg = e.cfg := by
  induction ds generalizing e with
  | nil => rfl
  | cons d ds ih => exact (ih (update e d)).trans (update_cfg e d)

set_option linter.unusedVariables false in
/-- Claim C2 (amended): after any sequence of `update(dt)` calls with
`dt ≥ 0` from a freshly initialised engine with a positive release
interval, the Emitter's `accumulatedTime` is non-negative; and after any
further `update` whose emission loop did NOT stop early for lack of free
slots (a free slot remains when the loop exits), it is moreover strictly
below `releaseInterval`.  (The unrestricted bound
`accumulatedTime < releaseInterval` claimed for updates whose emission
loop stops early on a full pool is refuted by `C2_counterexample`.) -/
theorem C2_acc_time_amended (cfg : Config) (ds : List ℚ)
    (hds : ∀ d ∈ ds, 0 ≤ d) (hiv : 0 < cfg.releaseInterval) :
    0 ≤ (afterUpdates cfg ds).accumulatedTime ∧
    ∀ dt : ℚ,
      hasFreeSlot (emitPhase cfg
          ((afterUpdates cfg ds).accumulatedTime + max dt 0)
          (afterUpdates cfg ds).particles).2 = true →
      (update (afterUpdates cfg ds) dt).accumulatedTime
        < cfg.releaseInterval := by
  have hcfg : (afterUpdates cfg ds).cfg = cfg := runUpdates_cfg _ ds
  constructor
  · exact runUpdates_acc_nonneg _ ds (le_refl 0)
  · intro dt hfree
    rw [update_accumulatedTime, hcfg]
    exact emitPhase_fst_lt_of_free cfg _ _ hiv hfree

end ParticleSystem

section ConcreteEvaluation

attribute [local semireducible] Rat.mul Rat.add Rat.sub Rat.inv Rat.ofScientific

namespace ParticleSystem

/-- A capacity-1 configuration: one slot, one particle per emission event,
release interval `0.1 s`, life cycle `5 s` — the pool is full after the
first emission. -/
def fullPoolConfig : Config :=
  setCollisionPlane
    (setVelocityScale
      (setWind
        (setGravity
          (setVelocity
            (setPosition
              (setLifeCycle
                (setReleaseInterval
                  (setNumToRelease (setMaxParticles Config.initial 1) 1)
                  (1/10))
                5)
              Vec3.zero)
            Vec3.zero)
          Vec3.zero)
        Vec3.zero)
      1)
    ⟨0, 1, 0⟩ Vec3.zero

/-- Counterexample to claim C2 as stated: two updates of `0.1 s` each on
`fullPoolConfig` (all deltas non-negative, positive release interval).
The first update fills the single slot; in the second the emission loop
stops early because no free slot remains, leaving
`accumulatedTime = 0.1 = releaseInterval`, violating the claimed strict
invariant `accumulatedTime < releaseInterval`. -/
theorem C2_counterexample :
    (∀ d ∈ [(1:ℚ)/10, 1/10], 0 ≤ d) ∧
    0 < fullPoolConfig.releaseInterval ∧
    ¬ (afterUpdates fullPoolConfig [1/10, 1/10]).accumulatedTime
        < fullPoolConfig.releaseInterval := by
  refine ⟨by decide, by decide, by decide⟩

/-- Witness for the amended claim C2 at the demo configuration. -/
theorem C2_witness :
    (∀ d ∈ [(1:ℚ)/20], 0 ≤ d) ∧ 0 < demoConfig.releaseInterval ∧
    (0 ≤ (afterUpdates demoConfig [1/20]).accumulatedTime ∧
     ∀ dt : ℚ,
       hasFreeSlot (emitPhase demoConfig
          ((afterUpdates demoConfig [1/20]).accumulatedTime + max dt 0)
          (afterUpdates demoConfig [1/20]).particles).2 = true →
       (update (afterUpdates demoConfig [1/20]) dt).accumulatedTime
         < demoConfig.releaseInterval) :=
  ⟨by decide, by decide,
   C2_acc_time_amended demoConfig [1/20] (by decide) (by decide)⟩

end ParticleSystem

end ConcreteEvaluation

namespace ParticleSystem

/-- Claim C5 (amended): in every reachable engine state, every particle has
a non-negative age and every ACTIVE particle's age is strictly below
`lifeCycle`; consequently a particle whose age reached `lifeCycle` is never
active and never contributes a Render Snapshot entry.  (The original
claim's stronger assertion that EVERY particle — including inactive free
slots — satisfies `age ≤ lifeCycle` is refuted by `C5_counterexample`:
a retired slot keeps its final over-age until reused.) -/
theorem C5_age_invariant_amended {e : Engine} (h : Reachable e) :
    (∀ p ∈ e.particles, 0 ≤ p.age ∧
      (p.active = true → p.age < e.cfg.lifeCycle)) ∧
    ∀ v ∈ snapshot e, ∃ p, p ∈ e.particles ∧ p.active = true ∧
      p.age < e.cfg.lifeCycle ∧ v = ⟨p.position, p.color⟩ := by
  have h1 := reachable_age_nonneg h
  have h2 := reachable_expired_inactive h
  constructor
  · intro p hp
    refine ⟨h1 p hp, fun hact => ?_⟩
    by_contra hge
    push_neg at hge
    rw [h2 p hp hge] at hact
    exact absurd hact (by simp)
  · intro v hv
    simp only [snapshot, List.mem_map, List.mem_filter] at hv
    obtain ⟨p, ⟨hp, hact⟩, rfl⟩ := hv
    refine ⟨p, hp, hact, ?_, rfl⟩
    by_contra hge
    push_neg at hge
    rw [h2 p hp hge] at hact
    exact absurd hact (by simp)

/-- Witness for the amended claim C5 on a reachable state of the demo
configuration. -/
theorem C5_witness :
    Reachable (update (initEngine demoConfig) (1/20)) ∧
    ((∀ p ∈ (update (initEngine demoConfig) (1/20)).particles, 0 ≤ p.age ∧
        (p.active = true →
          p.age < (update (initEngine demoConfig) (1/20)).cfg.lifeCycle)) ∧
     ∀ v ∈ snapshot (update (initEngine demoConfig) (1/20)), ∃ p,
       p ∈ (update (initEngine demoConfig) (1/20)).particles ∧
       p.active = true ∧
       p.age < (update (initEngine demoConfig) (1/20)).cfg.lifeCycle ∧
       v = ⟨p.position, p.color⟩) :=
  ⟨Reachable.update (1/20) (Reachable.init demoConfig),
   C5_age_invariant_amended (Reachable.update (1/20) (Reachable.init demoConfig))⟩

end ParticleSystem

section ConcreteEvaluation2

attribute [local semireducible] Rat.mul Rat.add Rat.sub Rat.inv Rat.ofScientific

namespace ParticleSystem

/-- Counterexample to claim C5 as stated: on the capacity-1 configuration
(life cycle 5 s), an update of `0.1 s` spawns the particle and a further
update of `6 s` retires it at age `6.1 s`.  The state after that update is
an observable instant at which the pool's (now inactive) particle has
`age = 6.1 > lifeCycle`, refuting "every particle satisfies
`0 ≤ age ≤ lifeCycle`". -/
theorem C5_counterexample :
    Reachable (afterUpdates fullPoolConfig [1/10, 6]) ∧
    ¬ ∀ p ∈ (afterUpdates fullPoolConfig [1/10, 6]).particles,
        p.age ≤ (afterUpdates fullPoolConfig [1/10, 6]).cfg.lifeCycle := by
  constructor
  · exact Reachable.update 6
      (Reachable.update (1/10) (Reachable.init fullPoolConfig))
  · decide

end ParticleSystem

end ConcreteEvaluation2

namespace ParticleSystem

theorem retireParticle_active_imp (cfg : Config) (p : Particle)
    (h : (retireParticle cfg p).active = true) : p.active = true := by
  unfold retireParticle at h
  by_cases hr : p.active = true ∧ cfg.lifeCycle ≤ p.age
  · exact hr.1
  · rw [if_neg hr] at h
    exact h

theorem countP_active_map_pres (f : Particle → Particle)
    (hf : ∀ p, (f p).active = p.active) (l : List Particle) :
    (l.map f).countP (fun p => p.active) = l.countP (fun p => p.active) := by
  rw [List.countP_map]
  have : ((fun p => p.active) ∘ f) = fun p : Particle => p.active := by
    funext p
    exact hf p
  rw [this]

theorem countP_active_map_retire (cfg : Config) (l : List Particle)
    (h : ∀ p ∈ l, p.active = true → p.age < cfg.lifeCycle) :
    (l.map (retireParticle cfg)).countP (fun p => p.active)
      = l.countP (fun p => p.active) := by
  rw [List.countP_map]
  apply List.countP_congr
  intro p hp
  have hpa : (retireParticle cfg p).active = p.active := by
    by_cases hact : p.active = true
    · unfold retireParticle
      rw [if_neg (by rintro ⟨_, hge⟩; exact absurd hge (not_le.mpr (h p hp hact)))]
    · unfold retireParticle
      rw [if_neg (by rintro ⟨ha, _⟩; exact hact ha)]
  simp [Function.comp, hpa]

theorem update_active_age_le {e : Engine} {d s : ℚ} (hd : 0 ≤ d) (hs : 0 ≤ s)
    (h : ∀ p ∈ e.particles, p.active = true → p.age ≤ s) :
    ∀ q ∈ (update e d).particles, q.active = true → q.age ≤ s + d := by
  intro q hq hact
  obtain ⟨p, hp, rfl⟩ := update_mem e d q hq
  rw [recolorParticle_active] at hact
  have hcact := retireParticle_active_imp _ _ hact
  rw [collideParticle_active, integrateParticle_active] at hcact
  rw [recolorParticle_age, retireParticle_age, collideParticle_age,
    integrateParticle_age]
  rw [if_pos (by rw [hcact])]
  have hmax : max d 0 = d := max_eq_left hd
  rw [hmax]
  have hage : p.age ≤ s := by
    rcases hp with hp | hp
    · exact h p hp hcact
    · rw [hp, freshParticle_age]; exact hs
  linarith

end ParticleSystem

namespace ParticleSystem

/-- The inductive invariant behind claim C3: with capacity 200, 5 particles
per emission event and a `0.1 s` release interval, after updates whose
non-negative deltas sum to `s ≤ 1`, some `k` emission events have fired,
`accumulatedTime = s - k * 0.1` lies in `[0, 0.1)`, exactly `5 * k`
particles are active, and no active particle is older than `s`. -/
def emissionInv (cfg : Config) (s : ℚ) (e : Engine) : Prop :=
  e.cfg = cfg ∧
  e.particles.length = 200 ∧
  0 ≤ e.accumulatedTime ∧
  e.accumulatedTime < 1/10 ∧
  (∃ k : ℕ, e.accumulatedTime = s - (k : ℚ) * (1/10) ∧ activeCount e = 5 * k) ∧
  (∀ p ∈ e.particles, p.active = true → p.age ≤ s)

theorem emissionInv_step {cfg : Config}
    (hcap : cfg.maxParticles = 200) (hn : cfg.numToRelease = 5)
    (hiv : cfg.releaseInterval = 1/10) (hL : 1 < cfg.lifeCycle)
    {s d : ℚ} (hd : 0 ≤ d) (hsd : s + d ≤ 1) {e : Engine}
    (hinv : emissionInv cfg s e) :
    emissionInv cfg (s + d) (update e d) := by
  obtain ⟨hcfg, hlen, hacc0, hacc1, ⟨k, hk, hak⟩, hages⟩ := hinv
  subst hcfg
  have hivpos : (0:ℚ) < e.cfg.releaseInterval := by rw [hiv]; norm_num
  have hn1 : 1 ≤ e.cfg.numToRelease := by omega
  have hs0 : 0 ≤ s := by
    have hk0 : (0:ℚ) ≤ (k:ℚ) * (1/10) := by positivity
    have := hk ▸ hacc0
    linarith
  have hmax : max d 0 = d := max_eq_left hd
  have ht0 : 0 ≤ e.accumulatedTime + d := by linarith
  set t := e.accumulatedTime + d with htdef
  set K := Nat.floor (t / e.cfg.releaseInterval) with hK
  have hKle : (K:ℚ) * e.cfg.releaseInterval ≤ t := by
    have h1 : (K:ℚ) ≤ t / e.cfg.releaseInterval :=
      Nat.floor_le (div_nonneg ht0 hivpos.le)
    calc (K:ℚ) * e.cfg.releaseInterval
        ≤ (t / e.cfg.releaseInterval) * e.cfg.releaseInterval :=
          mul_le_mul_of_nonneg_right h1 hivpos.le
      _ = t := by field_simp
  have hKgt : t < ((K:ℚ) + 1) * e.cfg.releaseInterval := by
    have h1 : t / e.cfg.releaseInterval < (K:ℚ) + 1 := Nat.lt_floor_add_one _
    calc t = (t / e.cfg.releaseInterval) * e.cfg.releaseInterval := by field_simp
      _ < ((K:ℚ) + 1) * e.cfg.releaseInterval := mul_lt_mul_of_pos_right h1 hivpos
  have hkK : k + K ≤ 10 := by
    have h2 : (K:ℚ) * (1/10) ≤ t := by rw [← hiv]; exact hKle
    have h4 : ((k + K : ℕ) : ℚ) ≤ 10 := by
      push_cast
      linarith
    exact_mod_cast h4
  have hfreeCount : freeCount e.particles = 200 - 5 * k := by
    have h1 := countP_add_freeCount e.particles
    unfold activeCount at hak
    omega
  have hfree : e.cfg.numToRelease * K ≤ freeCount e.particles := by
    rw [hn, hfreeCount]
    omega
  obtain ⟨hfst, hcnt⟩ := emitPhase_drain e.cfg t e.particles hivpos hn1 hfree
  have hacc' : (update e d).accumulatedTime
      = t - (K:ℚ) * e.cfg.releaseInterval := by
    rw [update_accumulatedTime, hmax, ← htdef, hfst]
  have hretire : ∀ p2 ∈ ((emitPhase e.cfg t e.particles).2.map
        (integrateParticle e.cfg d)).map (collideParticle e.cfg),
      p2.active = true → p2.age < e.cfg.lifeCycle := by
    intro p2 hp2 hact
    simp only [List.mem_map] at hp2
    obtain ⟨p1, ⟨p0, hp0, rfl⟩, rfl⟩ := hp2
    rw [collideParticle_active, integrateParticle_active] at hact
    rw [collideParticle_age, integrateParticle_age, if_pos (by rw [hact])]
    have hp0age : p0.age ≤ s := by
      rcases emitPhase_mem e.cfg t e.particles p0 hp0 with h | h
      · exact hages p0 h hact
      · rw [h, freshParticle_age]
        exact hs0
    linarith
  refine ⟨update_cfg e d, by rw [update_length]; exact hlen, ?_, ?_,
    ⟨k + K, ?_, ?_⟩, update_active_age_le hd hs0 hages⟩
  · rw [hacc']
    linarith
  · rw [hacc', ← hiv]
    linarith
  · rw [hacc', hiv, htdef, hk]
    push_cast
    ring
  · show activeCount (update e d) = 5 * (k + K)
    unfold activeCount
    rw [update_particles, hmax, ← htdef]
    rw [countP_active_map_pres (recolorParticle e.cfg) (recolorParticle_active e.cfg)]
    rw [countP_active_map_retire e.cfg _ hretire]
    rw [countP_active_map_pres (collideParticle e.cfg) (collideParticle_active e.cfg)]
    rw [countP_active_map_pres (integrateParticle e.cfg d)
      (integrateParticle_active e.cfg d)]
    rw [hcnt, hn]
    unfold activeCount at hak
    rw [hak]
    omega

end ParticleSystem

namespace ParticleSystem

theorem emissionInv_init {cfg : Config} (hcap : cfg.maxParticles = 200) :
    emissionInv cfg 0 (initEngine cfg) := by
  have hcnt : activeCount (initEngine cfg) = 0 := by
    unfold activeCount initEngine
    rw [List.countP_eq_zero]
    intro p hp
    rw [List.eq_of_mem_replicate hp]
    simp [inactiveParticle]
  refine ⟨rfl, ?_, le_refl 0, ?_, ⟨0, ?_, by omega⟩, ?_⟩
  · show (List.replicate cfg.maxParticles inactiveParticle).length = 200
    rw [List.length_replicate, hcap]
  · show (0:ℚ) < 1/10
    norm_num
  · show (0:ℚ) = 0 - ((0:ℕ):ℚ) * (1/10)
    norm_num
  · intro p hp hact
    simp only [initEngine] at hp
    rw [List.eq_of_mem_replicate hp] at hact
    exact absurd hact (by simp [inactiveParticle])

theorem emissionInv_run {cfg : Config}
    (hcap : cfg.maxParticles = 200) (hn : cfg.numToRelease = 5)
    (hiv : cfg.releaseInterval = 1/10) (hL : 1 < cfg.lifeCycle)
    (ds : List ℚ) (hds : ∀ d ∈ ds, 0 ≤ d) :
    ∀ (s : ℚ) (e : Engine), emissionInv cfg s e → s + ds.sum ≤ 1 →
      emissionInv cfg (s + ds.sum) (runUpdates e ds) := by
  induction ds with
  | nil =>
    intro s e h _
    simpa using h
  | cons d ds ih =>
    intro s e h hsum
    have hd : 0 ≤ d := hds d (List.mem_cons_self d ds)
    have hds' : ∀ x ∈ ds, 0 ≤ x := fun x hx => hds x (List.mem_cons_of_mem d hx)
    have hsum0 : 0 ≤ ds.sum := List.sum_nonneg hds'
    rw [List.sum_cons] at hsum
    have hsd : s + d ≤ 1 := by linarith
    have hstep := emissionInv_step hcap hn hiv hL hd hsd h
    have hrest := ih hds' (s + d) (update e d) hstep (by linarith)
    rw [List.sum_cons]
    have heq : s + (d + ds.sum) = (s + d) + ds.sum := by ring
    rw [heq]
    exact hrest

/-- Claim C3: with `releaseInterval = 0.1 s`, `numToRelease = 5`,
`capacity = 200` and a life cycle long enough that no particle expires
within the window (`lifeCycle > 1 s`), after any finite sequence of
non-negative deltas summing to exactly `1 s`, the pool holds exactly 50
active particles.  (Collisions never change the active count in the
engine, so no separate no-collision proviso is needed.) -/
theorem C3_emission_determinism (cfg : Config)
    (hcap : cfg.maxParticles = 200) (hn : cfg.numToRelease = 5)
    (hiv : cfg.releaseInterval = 1/10) (hL : 1 < cfg.lifeCycle)
    (ds : List ℚ) (hds : ∀ d ∈ ds, 0 ≤ d) (hsum : ds.sum = 1) :
    activeCount (afterUpdates cfg ds) = 50 := by
  have hrun := emissionInv_run hcap hn hiv hL ds hds 0 (initEngine cfg)
    (emissionInv_init hcap) (by rw [hsum]; norm_num)
  rw [hsum] at hrun
  obtain ⟨_, _, h0, h1, ⟨k, hk, hak⟩, _⟩ := hrun
  have hup : (0:ℚ) + 1 = 1 := by norm_num
  rw [hup] at hk
  have h0' := h0
  have h1' := h1
  rw [hk] at h0' h1'
  have a1 : k ≤ 10 := by
    have : (k:ℚ) ≤ 10 := by linarith
    exact_mod_cast this
  have a2 : 9 < k := by
    have : (9:ℚ) < (k:ℚ) := by linarith
    exact_mod_cast this
  have hk10 : k = 10 := by omega
  unfold afterUpdates
  rw [hak, hk10]

end ParticleSystem

section ConcreteEvaluation3

attribute [local semireducible] Rat.mul Rat.add Rat.sub Rat.inv Rat.ofScientific

namespace ParticleSystem

/-- The claim C3 configuration: the demo configuration with 5 particles per
emission event and a `0.1 s` release interval. -/
def c3Config : Config := setReleaseInterval (setNumToRelease demoConfig 5) (1/10)

/-- Witness for C3: a single update of one full second yields exactly 50
active particles. -/
theorem C3_witness :
    c3Config.maxParticles = 200 ∧ c3Config.numToRelease = 5 ∧
    c3Config.releaseInterval = 1/10 ∧ 1 < c3Config.lifeCycle ∧
    (∀ d ∈ [(1:ℚ)], 0 ≤ d) ∧ ([(1:ℚ)]).sum = 1 ∧
    activeCount (afterUpdates c3Config [1]) = 50 :=
  ⟨rfl, rfl, rfl, by decide, by decide, by decide,
   C3_emission_determinism c3Config rfl rfl rfl (by decide) [1]
     (by decide) (by decide)⟩

end ParticleSystem

end ConcreteEvaluation3
